import Mathlib

/-!
Verification of `tools/cert_create/src/ext.c` from the arm-trusted-firmware
certificate-creation tool: the TBB extension registry (`ext_init`) and the
typed extension encoders (`ext_new`, `ext_new_hash`, `ext_new_nvcounter`,
`ext_new_key`).

The OpenSSL primitives the code calls are modelled at the byte level:
`i2d_ASN1_OCTET_STRING` / `i2d_ASN1_INTEGER` as DER encoders over `List Nat`
byte strings, `OBJ_create` / `X509V3_EXT_add` / `X509V3_EXT_add_alias` as
operations on an explicit registry state, and `i2d_PUBKEY_bio` + `BIO_read`
through their observable effect (the serialized DER bytes, read back through
a 4096-byte buffer).
-/

namespace ExtC

/-! ## DER byte-level primitives (model of the OpenSSL `i2d`/`d2i` calls) -/

/-- Big-endian minimal base-256 digits of a natural number (`beBytes 0 = []`). -/
def beBytes (n : Nat) : List Nat :=
  if h : n = 0 then []
  else beBytes (n / 256) ++ [n % 256]
decreasing_by exact Nat.div_lt_self (Nat.pos_of_ne_zero h) (by omega)

/-- Big-endian value of a byte list. -/
def beVal (l : List Nat) : Nat :=
  l.foldl (fun a b => a * 256 + b) 0

/-- DER length octets: short form below 128, long form otherwise. -/
def derLen (n : Nat) : List Nat :=
  if n < 128 then [n]
  else (128 + (beBytes n).length) :: beBytes n

/-- Parse DER length octets, returning the length and the remaining bytes. -/
def parseLen : List Nat → Option (Nat × List Nat)
  | [] => none
  | b :: rest =>
    if b < 128 then some (b, rest)
    else
      let k := b - 128
      if k = 0 then none
      else if rest.length < k then none
      else some (beVal (rest.take k), rest.drop k)

/-- Model of `i2d_ASN1_OCTET_STRING`: tag `0x04`, DER length, contents. -/
def i2d_ASN1_OCTET_STRING (d : List Nat) : List Nat :=
  4 :: derLen d.length ++ d

/-- Model of `d2i_ASN1_OCTET_STRING` on a complete input: checks the tag,
parses the length, and requires the contents to fill the rest exactly. -/
def d2i_ASN1_OCTET_STRING (bs : List Nat) : Option (List Nat) :=
  match bs with
  | [] => none
  | b :: rest =>
    if b = 4 then
      match parseLen rest with
      | some (len, content) => if content.length = len then some content else none
      | none => none
    else none

/-- Exactly `k` big-endian base-256 digits of `m` (mod `256 ^ k`). -/
def beBytesFixed : Nat → Nat → List Nat
  | 0, _ => []
  | k + 1, m => beBytesFixed k (m / 256) ++ [m % 256]

/-- Minimal number `k ≥ 1` of two's-complement octets able to hold `-n`,
i.e. the least `k` with `n ≤ 128 * 256 ^ (k - 1)`. -/
def twosCompLen (n : Nat) : Nat :=
  if h : n ≤ 128 then 1
  else 1 + twosCompLen ((n + 255) / 256)
decreasing_by exact by omega

/-- Content octets of the DER encoding of an integer, as produced by
`ASN1_INTEGER_set` followed by `i2c_ASN1_INTEGER`: minimal-length
two's complement, a single `0x00` octet for zero. -/
def intContents (v : Int) : List Nat :=
  if 0 ≤ v then
    match beBytes v.toNat with
    | [] => [0]
    | b :: tl => if 128 ≤ b then 0 :: b :: tl else b :: tl
  else
    let n := (-v).toNat
    let k := twosCompLen n
    beBytesFixed k (256 ^ k - n)

/-- Model of `i2d_ASN1_INTEGER`: tag `0x02`, DER length, two's-complement
contents. -/
def i2d_ASN1_INTEGER (v : Int) : List Nat :=
  2 :: derLen (intContents v).length ++ intContents v

/-- Decode DER integer content octets (two's complement, big-endian). -/
def decodeIntContent : List Nat → Option Int
  | [] => none
  | b :: rest =>
    if b < 128 then some ((beVal (b :: rest) : Nat) : Int)
    else some (((beVal (b :: rest) : Nat) : Int) - (256 : Int) ^ (rest.length + 1))

/-- Model of `d2i_ASN1_INTEGER` on a complete input. -/
def d2i_ASN1_INTEGER (bs : List Nat) : Option Int :=
  match bs with
  | [] => none
  | b :: rest =>
    if b = 2 then
      match parseLen rest with
      | some (len, content) =>
        if content.length = len then decodeIntContent content else none
      | none => none
    else none

/-- DER minimality of integer content octets: non-empty, and no redundant
leading `0x00` before a byte below `0x80`, no redundant leading `0xFF`
before a byte at or above `0x80`. -/
def derIntMinimal : List Nat → Prop
  | [] => False
  | [_] => True
  | b :: b2 :: _ => ¬(b = 0 ∧ b2 < 128) ∧ ¬(b = 255 ∧ 128 ≤ b2)

/-! ## Extension records and the encoders of `ext.c` -/

/-- Model of an OpenSSL `X509_EXTENSION` as produced by
`X509_EXTENSION_create_by_NID`: identifier, criticality, and the extension
data octets. -/
structure X509Ext where
  nid : Int
  crit : Int
  value : List Nat
deriving DecidableEq, Repr

/-- `ext_new` (`ext.c:107`): wraps `data` in an `ASN1_OCTET_STRING` and
builds the extension via `X509_EXTENSION_create_by_NID`; the extension's
value holds exactly the supplied data octets. -/
def ext_new (nid crit : Int) (data : List Nat) : X509Ext :=
  { nid := nid, crit := crit, value := data }

/-- `ext_new_hash` (`ext.c:138`): DER-encodes the digest as an octet string
and builds the extension from those bytes. -/
def ext_new_hash (nid crit : Int) (buf : List Nat) : X509Ext :=
  ext_new nid crit (i2d_ASN1_OCTET_STRING buf)

/-- `ext_new_nvcounter` (`ext.c:173`): DER-encodes the counter as an ASN.1
integer and builds the extension from those bytes. -/
def ext_new_nvcounter (nid crit : Int) (value : Int) : X509Ext :=
  ext_new nid crit (i2d_ASN1_INTEGER value)

/-- Model of an `EVP_PKEY` by its observable behaviour under
`i2d_PUBKEY_bio`: either the DER `SubjectPublicKeyInfo` octets, or `none`
when serialization fails (`i2d_PUBKEY_bio` returns `<= 0`). -/
structure EVP_PKEY where
  pubkeyDer : Option (List Nat)

/-- `ext_new_key` (`ext.c:211`): serializes the key into a memory BIO; on
failure returns `NULL` (here `none`). Otherwise reads back at most 4096
bytes (`BIO_read(mem, p, 4096)`) and builds the extension from them — bytes
beyond 4096 are silently dropped. -/
def ext_new_key (nid crit : Int) (k : EVP_PKEY) : Option X509Ext :=
  match k.pubkeyDer with
  | none => none
  | some der => some (ext_new nid crit (der.take 4096))

/-! ## The extension registry: `ext_init` -/

/-- ASN.1 value tag of a TBB extension definition: `V_ASN1_INTEGER`,
`V_ASN1_OCTET_STRING`, or any other tag value (the `default:` case of the
`switch` in `ext_init`). -/
inductive Asn1Type where
  | integer
  | octetString
  | other (code : Int)
deriving DecidableEq, Repr

/-- A TBB extension definition (`ext_t`): OID string (a `NULL` pointer —
`none` — is the list sentinel), short and long names, alias NID `aliasNid` (`0` means
no alias, as `if (ext->alias)` tests the int), and the ASN.1 type tag. -/
structure ExtDef where
  oid : Option String
  sn : String
  ln : String
  aliasNid : Int
  type : Asn1Type
deriving DecidableEq, Repr

/-- The process-wide OpenSSL state `ext_init` mutates: the object table
(`OBJ_create` interns `(oid, sn, ln)` and yields a fresh NID, modelled as
the table index), the extension-method table (`X509V3_EXT_add`, recording
the NID and the ASN.1 item its methods were built from), and the alias
registrations attempted (`X509V3_EXT_add_alias`, with the toolkit's
outcome — the C code discards it). -/
structure RegState where
  objs : List (String × String × String)
  methods : List (Nat × Asn1Type)
  aliases : List (Nat × Int × Bool)
deriving DecidableEq, Repr

/-- `ext_init` (`ext.c:52`): walks the definition list until the `NULL`-oid
sentinel. For each definition it interns the OID (`OBJ_create`), then either
registers an alias (outcome ignored), or — for `V_ASN1_INTEGER` /
`V_ASN1_OCTET_STRING` — fills an `X509V3_EXT_METHOD` and calls
`X509V3_EXT_add`, returning `1` immediately if that fails; any other type
falls to `default: continue`. Returns `0` on success.

`addOk nid` models whether `X509V3_EXT_add` succeeds for that NID;
`aliasOk nid alias` models the (discarded) outcome of
`X509V3_EXT_add_alias`. -/
def ext_init (addOk : Nat → Bool) (aliasOk : Nat → Int → Bool) :
    List ExtDef → RegState → Nat × RegState
  | [], st => (0, st)
  | d :: rest, st =>
    match d.oid with
    | none => (0, st)
    | some oid =>
      let nid := st.objs.length
      let st1 : RegState := { st with objs := st.objs ++ [(oid, d.sn, d.ln)] }
      if d.aliasNid ≠ 0 then
        ext_init addOk aliasOk rest
          { st1 with aliases := st1.aliases ++ [(nid, d.aliasNid, aliasOk nid d.aliasNid)] }
      else
        match d.type with
        | .integer =>
          if addOk nid then
            ext_init addOk aliasOk rest
              { st1 with methods := st1.methods ++ [(nid, .integer)] }
          else (1, st1)
        | .octetString =>
          if addOk nid then
            ext_init addOk aliasOk rest
              { st1 with methods := st1.methods ++ [(nid, .octetString)] }
          else (1, st1)
        | .other _ => ext_init addOk aliasOk rest st1

/-! ## State-threaded encoders (frame model)

The encoders call only `ASN1_*`, `i2d_*`, `BIO_*`, `OPENSSL_*` and
`X509_EXTENSION_create_by_NID`; none of these writes the object table or the
extension-method table. Threading the registry state through each such call
makes that explicit: every primitive returns its result together with the
state it was given. -/

/-- `ext_new` with the registry state threaded through
`ASN1_OCTET_STRING_new` / `ASN1_OCTET_STRING_set` /
`X509_EXTENSION_create_by_NID` / `ASN1_OCTET_STRING_free`. -/
def ext_new_st (st : RegState) (nid crit : Int) (data : List Nat) :
    X509Ext × RegState :=
  let (extData, st) := ((data : List Nat), st)
  let (ex, st) := (ext_new nid crit extData, st)
  (ex, st)

/-- `ext_new_hash` with the registry state threaded through every toolkit
call it makes. -/
def ext_new_hash_st (st : RegState) (nid crit : Int) (buf : List Nat) :
    X509Ext × RegState :=
  let (p, st) := (i2d_ASN1_OCTET_STRING buf, st)
  ext_new_st st nid crit p

/-- `ext_new_nvcounter` with the registry state threaded through every
toolkit call it makes. -/
def ext_new_nvcounter_st (st : RegState) (nid crit : Int) (value : Int) :
    X509Ext × RegState :=
  let (p, st) := (i2d_ASN1_INTEGER value, st)
  ext_new_st st nid crit p

/-- `ext_new_key` with the registry state threaded through every toolkit
call it makes. -/
def ext_new_key_st (st : RegState) (nid crit : Int) (k : EVP_PKEY) :
    Option X509Ext × RegState :=
  match k.pubkeyDer with
  | none => (none, st)
  | some der =>
    let (p, st) := (der.take 4096, st)
    let (ex, st) := ext_new_st st nid crit p
    (some ex, st)

/-! ## Byte-level lemmas -/

theorem beVal_append (xs : List Nat) (b : Nat) :
    beVal (xs ++ [b]) = 256 * beVal xs + b := by
  simp [beVal, List.foldl_append]
  omega

theorem beVal_beBytes (n : Nat) : beVal (beBytes n) = n := by
  induction n using Nat.strong_induction_on with
  | _ n ih =>
    rw [beBytes]
    split
    · simp [beVal]
      omega
    · rename_i h
      rw [beVal_append, ih (n / 256) (Nat.div_lt_self (Nat.pos_of_ne_zero h) (by omega))]
      omega

theorem beBytes_head (n : Nat) (h : n ≠ 0) :
    ∃ b tl, beBytes n = b :: tl ∧ b ≠ 0 := by
  induction n using Nat.strong_induction_on with
  | _ n ih =>
    rw [beBytes]
    split
    · omega
    · by_cases h2 : n / 256 = 0
      · refine ⟨n % 256, [], ?_, ?_⟩
        · rw [beBytes]
          simp [h2]
        · omega
      · obtain ⟨b, tl, hb, hbne⟩ :=
          ih (n / 256) (Nat.div_lt_self (Nat.pos_of_ne_zero h) (by omega)) h2
        exact ⟨b, tl ++ [n % 256], by rw [hb]; simp, hbne⟩

theorem beBytes_ne_nil (n : Nat) (h : n ≠ 0) : beBytes n ≠ [] := by
  obtain ⟨b, tl, hb, _⟩ := beBytes_head n h
  simp [hb]

theorem parseLen_derLen (n : Nat) (rest : List Nat) :
    parseLen (derLen n ++ rest) = some (n, rest) := by
  unfold derLen
  split
  · rename_i h
    simp only [List.singleton_append, parseLen]
    rw [if_pos h]
  · rename_i h
    have hnz : n ≠ 0 := by omega
    have hlen : 1 ≤ (beBytes n).length := by
      cases hb : beBytes n with
      | nil => exact absurd hb (beBytes_ne_nil n hnz)
      | cons b tl => simp
    simp only [List.cons_append, parseLen]
    rw [if_neg (by omega), if_neg (by omega),
      if_neg (by simp only [List.length_append, Nat.not_lt]; omega)]
    simp only [Nat.add_sub_cancel_left]
    rw [List.take_left, List.drop_left, beVal_beBytes]

/-- Octet-string DER round-trip at the byte level. -/
theorem d2i_i2d_ASN1_OCTET_STRING (d : List Nat) :
    d2i_ASN1_OCTET_STRING (i2d_ASN1_OCTET_STRING d) = some d := by
  unfold i2d_ASN1_OCTET_STRING d2i_ASN1_OCTET_STRING
  simp [parseLen_derLen]

theorem beBytesFixed_length (k m : Nat) : (beBytesFixed k m).length = k := by
  induction k generalizing m with
  | zero => rfl
  | succ k ih => simp [beBytesFixed, ih]

theorem beBytesFixed_succ (k m : Nat) :
    beBytesFixed (k + 1) m = (m / 256 ^ k) % 256 :: beBytesFixed k m := by
  induction k generalizing m with
  | zero => simp [beBytesFixed]
  | succ k ih =>
    show beBytesFixed (k + 1) (m / 256) ++ [m % 256] = _
    rw [ih (m / 256), Nat.div_div_eq_div_mul, ← pow_succ']
    rfl

theorem beVal_beBytesFixed (k m : Nat) (h : m < 256 ^ k) :
    beVal (beBytesFixed k m) = m := by
  induction k generalizing m with
  | zero =>
    simp [beBytesFixed, beVal]
    omega
  | succ k ih =>
    have h2 : m / 256 < 256 ^ k := by
      have : (256 : Nat) ^ (k + 1) = 256 ^ k * 256 := pow_succ 256 k
      omega
    show beVal (beBytesFixed k (m / 256) ++ [m % 256]) = m
    rw [beVal_append, ih (m / 256) h2]
    omega

theorem twosCompLen_pos (n : Nat) : 1 ≤ twosCompLen n := by
  rw [twosCompLen]
  split <;> omega

theorem twosCompLen_upper (n : Nat) :
    n ≤ 128 * 256 ^ (twosCompLen n - 1) := by
  induction n using Nat.strong_induction_on with
  | _ n ih =>
    rw [twosCompLen]
    split
    · simpa
    · rename_i h
      have hlt : (n + 255) / 256 < n := by omega
      have hup := ih ((n + 255) / 256) hlt
      have hpos := twosCompLen_pos ((n + 255) / 256)
      set k := twosCompLen ((n + 255) / 256) with hk
      have hpow : (256 : Nat) ^ k = 256 ^ (k - 1) * 256 := by
        conv_lhs => rw [show k = k - 1 + 1 by omega]
        exact pow_succ 256 (k - 1)
      have : 1 + k - 1 = k := by omega
      rw [this, hpow]
      set Q := (256 : Nat) ^ (k - 1)
      omega

theorem twosCompLen_lower (n : Nat) (h : 2 ≤ twosCompLen n) :
    128 * 256 ^ (twosCompLen n - 2) < n := by
  induction n using Nat.strong_induction_on with
  | _ n ih =>
    by_cases hn : n ≤ 128
    · rw [twosCompLen, dif_pos hn] at h
      omega
    · rw [twosCompLen, dif_neg hn] at h ⊢
      have hlt : (n + 255) / 256 < n := by omega
      have hpos := twosCompLen_pos ((n + 255) / 256)
      set k := twosCompLen ((n + 255) / 256) with hk
      by_cases h1 : k = 1
      · rw [h1]
        norm_num
        omega
      · have h2 : 2 ≤ k := by omega
        have hlow := ih ((n + 255) / 256) hlt (by rw [← hk]; omega)
        rw [← hk] at hlow
        have hpow : (256 : Nat) ^ (1 + k - 2) = 256 ^ (k - 2) * 256 := by
          conv_lhs => rw [show 1 + k - 2 = k - 2 + 1 by omega]
          exact pow_succ 256 (k - 2)
        rw [hpow]
        set R := (256 : Nat) ^ (k - 2)
        omega

theorem beVal_cons_zero (l : List Nat) : beVal (0 :: l) = beVal l := by
  simp [beVal]

/-- Structure of the negative-integer content octets: writing `n = (-v).toNat`
and `k = twosCompLen n`, the contents are `beBytesFixed k (256 ^ k - n)`,
whose first octet is at least `0x80` and whose big-endian value is
`256 ^ k - n`. -/
theorem intContents_neg_facts (n : Nat) (hn : 1 ≤ n) :
    ∃ b rest, beBytesFixed (twosCompLen n) (256 ^ twosCompLen n - n) = b :: rest ∧
      128 ≤ b ∧ rest.length = twosCompLen n - 1 ∧
      beVal (b :: rest) = 256 ^ twosCompLen n - n := by
  have hpos := twosCompLen_pos n
  have hup := twosCompLen_upper n
  set k := twosCompLen n with hk
  set j := k - 1 with hj
  have hkj : k = j + 1 := by omega
  set m := 256 ^ k - n with hm
  have hpowsucc : (256 : Nat) ^ k = 256 ^ j * 256 := by
    rw [hkj]
    exact pow_succ 256 j
  have hjpos : (1 : Nat) ≤ 256 ^ j := Nat.one_le_pow _ _ (by omega)
  have hmlt : m < 256 ^ k := by omega
  have hmge : 128 * 256 ^ j ≤ m := by
    have : n ≤ 128 * 256 ^ j := by rw [hj]; exact hup
    omega
  have hcons : beBytesFixed k m = (m / 256 ^ j) % 256 :: beBytesFixed j m := by
    rw [hkj]
    exact beBytesFixed_succ j m
  have hdivlt : m / 256 ^ j < 256 := by
    rw [Nat.div_lt_iff_lt_mul (Nat.pos_of_ne_zero (by omega))]
    omega
  have hdivge : 128 ≤ m / 256 ^ j :=
    (Nat.le_div_iff_mul_le (Nat.pos_of_ne_zero (by omega))).2 (by omega)
  refine ⟨(m / 256 ^ j) % 256, beBytesFixed j m, hcons, ?_, ?_, ?_⟩
  · rw [Nat.mod_eq_of_lt hdivlt]
    exact hdivge
  · rw [beBytesFixed_length]
  · rw [← hcons, beVal_beBytesFixed k m hmlt]

/-- Integer content round-trip: decoding the two's-complement content octets
of `intContents v` yields `v` back. -/
theorem decodeIntContent_intContents (v : Int) :
    decodeIntContent (intContents v) = some v := by
  unfold intContents
  split
  · rename_i hv
    cases hb : beBytes v.toNat with
    | nil =>
      have hz : v.toNat = 0 := by
        by_contra h
        exact beBytes_ne_nil _ h hb
      have hv0 : v = 0 := by omega
      subst hv0
      show decodeIntContent [0] = some 0
      simp [decodeIntContent, beVal]
    | cons b tl =>
      have hbv : beVal (b :: tl) = v.toNat := by rw [← hb, beVal_beBytes]
      show decodeIntContent (if 128 ≤ b then 0 :: b :: tl else b :: tl) = some v
      by_cases h128 : 128 ≤ b
      · rw [if_pos h128]
        show (if (0 : Nat) < 128 then some ((beVal (0 :: b :: tl) : Nat) : Int)
          else some (((beVal (0 :: b :: tl) : Nat) : Int)
            - (256 : Int) ^ ((b :: tl).length + 1))) = some v
        rw [if_pos (by norm_num), beVal_cons_zero, hbv, Int.toNat_of_nonneg hv]
      · rw [if_neg h128]
        show (if b < 128 then some ((beVal (b :: tl) : Nat) : Int)
          else some (((beVal (b :: tl) : Nat) : Int)
            - (256 : Int) ^ (tl.length + 1))) = some v
        rw [if_pos (by omega), hbv, Int.toNat_of_nonneg hv]
  · rename_i hv
    have hneg : v < 0 := by omega
    have hn : 1 ≤ (-v).toNat := by omega
    show decodeIntContent (beBytesFixed (twosCompLen (-v).toNat)
      (256 ^ twosCompLen (-v).toNat - (-v).toNat)) = some v
    obtain ⟨b, rest, hcons, hb128, hlen, hval⟩ := intContents_neg_facts (-v).toNat hn
    rw [hcons]
    show (if b < 128 then some ((beVal (b :: rest) : Nat) : Int)
      else some (((beVal (b :: rest) : Nat) : Int)
        - (256 : Int) ^ (rest.length + 1))) = some v
    rw [if_neg (by omega), hval, hlen]
    have hpos := twosCompLen_pos (-v).toNat
    have hup := twosCompLen_upper (-v).toNat
    set k := twosCompLen (-v).toNat with hk
    have hle : (-v).toNat ≤ 256 ^ k := by
      have h1 : (1 : Nat) ≤ 256 ^ (k - 1) := Nat.one_le_pow _ _ (by omega)
      have h2 : (256 : Nat) ^ k = 256 ^ (k - 1) * 256 := by
        conv_lhs => rw [show k = k - 1 + 1 by omega]
        exact pow_succ 256 (k - 1)
      omega
    have hexp : k - 1 + 1 = k := by omega
    rw [hexp]
    have hcast : ((256 ^ k - (-v).toNat : Nat) : Int)
        = (256 : Int) ^ k - ((-v).toNat : Int) := by
      push_cast [hle]
      ring
    rw [hcast, Int.toNat_of_nonneg (by omega : (0 : Int) ≤ -v)]
    congr 1
    ring

/-- The content octets of `intContents v` are DER-minimal: non-empty, no
redundant leading `0x00` or `0xFF`. -/
theorem derIntMinimal_intContents (v : Int) : derIntMinimal (intContents v) := by
  unfold intContents
  split
  · rename_i hv
    cases hb : beBytes v.toNat with
    | nil =>
      show derIntMinimal [0]
      trivial
    | cons b tl =>
      have hz : v.toNat ≠ 0 := by
        intro h
        rw [h, beBytes] at hb
        simp at hb
      obtain ⟨b', tl', hb', hbne⟩ := beBytes_head v.toNat hz
      rw [hb] at hb'
      injection hb' with hbb htl
      subst hbb
      show derIntMinimal (if 128 ≤ b then 0 :: b :: tl else b :: tl)
      by_cases h128 : 128 ≤ b
      · rw [if_pos h128]
        exact ⟨by omega, by omega⟩
      · rw [if_neg h128]
        cases tl with
        | nil => trivial
        | cons c tl2 => exact ⟨by omega, by omega⟩
  · rename_i hv
    have hneg : v < 0 := by omega
    have hn : 1 ≤ (-v).toNat := by omega
    show derIntMinimal (beBytesFixed (twosCompLen (-v).toNat)
      (256 ^ twosCompLen (-v).toNat - (-v).toNat))
    set n := (-v).toNat with hndef
    have hpos := twosCompLen_pos n
    have hup := twosCompLen_upper n
    set k := twosCompLen n with hk
    by_cases hk1 : k = 1
    · rw [hk1]
      show derIntMinimal ([] ++ [(256 ^ 1 - n) % 256])
      trivial
    · have hk2 : 2 ≤ k := by omega
      have hlow := twosCompLen_lower n hk2
      rw [← hk] at hlow
      set j := k - 2 with hj
      have hkj : k = j + 2 := by omega
      have hjlow : 128 * 256 ^ j < n := by
        rw [hj]
        exact hlow
      have hj1 : k - 1 = j + 1 := by omega
      have hjup : n ≤ 128 * 256 ^ (j + 1) := by
        rw [← hj1]
        exact hup
      have hjpos : (1 : Nat) ≤ 256 ^ j := Nat.one_le_pow _ _ (by omega)
      have hpow1 : (256 : Nat) ^ (j + 1) = 256 * 256 ^ j := by
        rw [pow_succ]
        ring
      have hpow2 : (256 : Nat) ^ k = 65536 * 256 ^ j := by
        rw [hkj, pow_succ, pow_succ]
        ring
      set m := 256 ^ k - n with hm
      have hm2 : m = 65536 * 256 ^ j - n := by rw [hm, hpow2]
      have hmlt : m < 65536 * 256 ^ j := by omega
      have hmge : 128 * 256 ^ (j + 1) ≤ m := by omega
      have hcons : beBytesFixed k m
          = (m / 256 ^ (j + 1)) % 256 :: (m / 256 ^ j) % 256 :: beBytesFixed j m := by
        rw [hkj, beBytesFixed_succ (j + 1) m, beBytesFixed_succ j m]
      have hd1lt : m / 256 ^ (j + 1) < 256 := by
        rw [Nat.div_lt_iff_lt_mul (Nat.pos_of_ne_zero (by positivity))]
        calc m < 65536 * 256 ^ j := hmlt
        _ = 256 * 256 ^ (j + 1) := by rw [hpow1]; ring
        _ ≤ 256 * 256 ^ (j + 1) := le_refl _
      have hd1ge : 128 ≤ m / 256 ^ (j + 1) :=
        (Nat.le_div_iff_mul_le (Nat.pos_of_ne_zero (by positivity))).2 (by omega)
      rw [hcons]
      refine ⟨?_, ?_⟩
      · rw [Nat.mod_eq_of_lt hd1lt]
        omega
      · rintro ⟨h255, h2128⟩
        rw [Nat.mod_eq_of_lt hd1lt] at h255
        have hdd : m / 256 ^ j / 256 = m / 256 ^ (j + 1) := by
          rw [Nat.div_div_eq_div_mul, ← pow_succ]
        have hsplit : m / 256 ^ j = 256 * (m / 256 ^ (j + 1)) + (m / 256 ^ j) % 256 := by
          conv_lhs => rw [← Nat.div_add_mod (m / 256 ^ j) 256]
          rw [hdd]
        have hdv : 255 * 256 + 128 ≤ m / 256 ^ j := by omega
        have hmul : (m / 256 ^ j) * 256 ^ j ≤ m := Nat.div_mul_le_self m (256 ^ j)
        have hmge2 : 65408 * 256 ^ j ≤ m := by
          calc (65408 : Nat) * 256 ^ j = (255 * 256 + 128) * 256 ^ j := by norm_num
          _ ≤ (m / 256 ^ j) * 256 ^ j := Nat.mul_le_mul_right _ hdv
          _ ≤ m := hmul
        omega

/-! ## Structural lemmas about `ext_init` -/

/-- Processing `pre ++ rest` runs `pre` first; if that returned success the
scan continues with `rest` from the reached state, and if it returned the
error code the scan stops there — provided no definition in `pre` is the
sentinel. -/
theorem ext_init_append (addOk : Nat → Bool) (aliasOk : Nat → Int → Bool)
    (pre rest : List ExtDef) (st : RegState) (h : ∀ x ∈ pre, x.oid ≠ none) :
    ext_init addOk aliasOk (pre ++ rest) st =
      if (ext_init addOk aliasOk pre st).1 = 0
      then ext_init addOk aliasOk rest (ext_init addOk aliasOk pre st).2
      else ext_init addOk aliasOk pre st := by
  induction pre generalizing st with
  | nil => simp [ext_init]
  | cons d pre ih =>
    have hd : d.oid ≠ none := h d (by simp)
    have hpre : ∀ x ∈ pre, x.oid ≠ none := fun x hx => h x (by simp [hx])
    cases ho : d.oid with
    | none => exact absurd ho hd
    | some o =>
      simp only [List.cons_append, ext_init, ho]
      split
      · exact ih _ hpre
      · split
        · split
          · exact ih _ hpre
          · simp
        · split
          · exact ih _ hpre
          · simp
        · exact ih _ hpre

/-- Any method entry present after a run of `ext_init` was either already
registered beforehand, or has a NID at least the number of objects interned
when the run started (NIDs are handed out in interning order). -/
theorem ext_init_methods_mono (addOk : Nat → Bool) (aliasOk : Nat → Int → Bool)
    (l : List ExtDef) (st : RegState) :
    ∀ p ∈ (ext_init addOk aliasOk l st).2.methods,
      p ∈ st.methods ∨ st.objs.length ≤ p.1 := by
  induction l generalizing st with
  | nil =>
    intro p hp
    exact Or.inl hp
  | cons d rest ih =>
    intro p hp
    cases ho : d.oid with
    | none =>
      simp only [ext_init, ho] at hp
      exact Or.inl hp
    | some o =>
      simp only [ext_init, ho] at hp
      split at hp
      · rcases ih _ p hp with h1 | h1
        · exact Or.inl h1
        · simp at h1
          omega
      · split at hp
        · split at hp
          · rcases ih _ p hp with h1 | h1
            · simp at h1
              rcases h1 with h1 | h1
              · exact Or.inl h1
              · right
                simp [h1]
            · right
              simp at h1
              omega
          · exact Or.inl hp
        · split at hp
          · rcases ih _ p hp with h1 | h1
            · simp at h1
              rcases h1 with h1 | h1
              · exact Or.inl h1
              · right
                simp [h1]
            · right
              simp at h1
              omega
          · exact Or.inl hp
        · rcases ih _ p hp with h1 | h1
          · exact Or.inl h1
          · right
            simp at h1
            omega

/-- Full DER integer round-trip. -/
theorem d2i_i2d_ASN1_INTEGER (v : Int) :
    d2i_ASN1_INTEGER (i2d_ASN1_INTEGER v) = some v := by
  unfold i2d_ASN1_INTEGER d2i_ASN1_INTEGER
  simp [parseLen_derLen, decodeIntContent_intContents]

/-! ## Claim theorems -/

/-- C4: for every digest `d` (any length, including zero), the encoded value
of `ext_new_hash`, DER-decoded as an octet string, yields back exactly `d`;
and the encoding is injective — two digests with the same encoded value are
equal. -/
theorem C4_hash_roundtrip_injective :
    (∀ (nid crit : Int) (d : List Nat),
       d2i_ASN1_OCTET_STRING ((ext_new_hash nid crit d).value) = some d)
    ∧ ∀ (nid1 crit1 nid2 crit2 : Int) (d1 d2 : List Nat),
        (ext_new_hash nid1 crit1 d1).value = (ext_new_hash nid2 crit2 d2).value →
          d1 = d2 := by
  have hrt : ∀ (nid crit : Int) (d : List Nat),
      d2i_ASN1_OCTET_STRING ((ext_new_hash nid crit d).value) = some d := by
    intro nid crit d
    exact d2i_i2d_ASN1_OCTET_STRING d
  refine ⟨hrt, ?_⟩
  intro n1 c1 n2 c2 d1 d2 h
  have h1 := hrt n1 c1 d1
  rw [h, hrt n2 c2 d2] at h1
  exact (Option.some_inj.mp h1).symm

/-- Witness for C4 at a 32-byte digest and at equal encodings. -/
theorem C4_witness :
    d2i_ASN1_OCTET_STRING ((ext_new_hash 1 1 (List.replicate 32 171)).value)
      = some (List.replicate 32 171)
    ∧ ([5, 6] : List Nat) = [5, 6] :=
  ⟨C4_hash_roundtrip_injective.1 1 1 (List.replicate 32 171),
   C4_hash_roundtrip_injective.2 1 1 1 1 [5, 6] [5, 6] rfl⟩

/-- C5: for every non-negative counter value, the encoded value of
`ext_new_nvcounter`, DER-decoded as an integer, yields back exactly the
value, and the integer content octets are DER-minimal (one extra leading
zero octet only where needed for sign). -/
theorem C5_counter_roundtrip_minimal (nid crit v : Int) (hv : 0 ≤ v) :
    d2i_ASN1_INTEGER ((ext_new_nvcounter nid crit v).value) = some v
    ∧ derIntMinimal (intContents v) :=
  ⟨d2i_i2d_ASN1_INTEGER v, derIntMinimal_intContents v⟩

/-- Witness for C5 at `v = 2^31 - 1`. -/
theorem C5_witness :
    (0 : Int) ≤ 2147483647
    ∧ (d2i_ASN1_INTEGER ((ext_new_nvcounter 1 0 2147483647).value)
        = some 2147483647
      ∧ derIntMinimal (intContents 2147483647)) :=
  ⟨by norm_num, C5_counter_roundtrip_minimal 1 0 2147483647 (by norm_num)⟩

/-- C8: for every negative value, `ext_new_nvcounter` performs no
non-negativity check and does not fail: it produces a record whose encoded
value is a valid DER encoding of that negative integer (it decodes back to
the same negative value). -/
theorem C8_counter_negative_encodes (nid crit v : Int) (hv : v < 0) :
    (ext_new_nvcounter nid crit v).value = i2d_ASN1_INTEGER v
    ∧ d2i_ASN1_INTEGER ((ext_new_nvcounter nid crit v).value) = some v :=
  ⟨rfl, d2i_i2d_ASN1_INTEGER v⟩

/-- Witness for C8 at `v = -1`. -/
theorem C8_witness :
    (-1 : Int) < 0
    ∧ ((ext_new_nvcounter 1 0 (-1)).value = i2d_ASN1_INTEGER (-1)
      ∧ d2i_ASN1_INTEGER ((ext_new_nvcounter 1 0 (-1)).value) = some (-1)) :=
  ⟨by norm_num, C8_counter_negative_encodes 1 0 (-1) (by norm_num)⟩

/-- C7: when the toolkit cannot serialize the key (`i2d_PUBKEY_bio` fails),
`ext_new_key` returns `NULL` — no partial extension record. -/
theorem C7_key_serialization_failure (nid crit : Int) (k : EVP_PKEY)
    (h : k.pubkeyDer = none) : ext_new_key nid crit k = none := by
  simp [ext_new_key, h]

/-- Witness for C7 at a key that fails to serialize. -/
theorem C7_witness : ext_new_key 1 0 ⟨none⟩ = none :=
  C7_key_serialization_failure 1 0 ⟨none⟩ rfl

/-- C1 (defect evaluation): at a serialized size of exactly 4096 bytes
`ext_new_key` keeps the full encoding, but at 4097 bytes it returns a
record holding only the first 4096 bytes — truncated output instead of a
`KeyTooLarge` failure (no such error path exists in the code). -/
theorem C1_key_truncated_beyond_4096 :
    ext_new_key 1 0 ⟨some (List.replicate 4096 171)⟩
      = some (ext_new 1 0 (List.replicate 4096 171))
    ∧ ext_new_key 1 0 ⟨some (List.replicate 4097 171)⟩
      = some (ext_new 1 0 (List.replicate 4096 171))
    ∧ (List.replicate 4096 171 : List Nat) ≠ List.replicate 4097 171 := by
  refine ⟨?_, ?_, ?_⟩
  · show some (ext_new 1 0 ((List.replicate 4096 171).take 4096)) = _
    rw [List.take_replicate, Nat.min_self]
  · show some (ext_new 1 0 ((List.replicate 4097 171).take 4096)) = _
    rw [List.take_replicate, show min 4096 4097 = 4096 by norm_num]
  · intro h
    have hl := congrArg List.length h
    simp only [List.length_replicate] at hl
    omega

/-- C2: if `X509V3_EXT_add` fails for the definition following `pre`,
`ext_init` returns the error code `1` at once: the result does not depend
on the definitions after the failing one, the failing definition's OID has
already been interned, and everything registered while processing `pre`
remains registered. -/
theorem C2_ext_init_fail_fast (addOk : Nat → Bool) (aliasOk : Nat → Int → Bool)
    (pre post : List ExtDef) (st : RegState) (d : ExtDef) (o : String)
    (hpre : ∀ x ∈ pre, x.oid ≠ none)
    (hok : (ext_init addOk aliasOk pre st).1 = 0)
    (ho : d.oid = some o) (ha : d.aliasNid = 0)
    (ht : d.type = Asn1Type.integer ∨ d.type = Asn1Type.octetString)
    (hfail : addOk (ext_init addOk aliasOk pre st).2.objs.length = false) :
    ext_init addOk aliasOk (pre ++ d :: post) st =
      (1, { (ext_init addOk aliasOk pre st).2 with
            objs := (ext_init addOk aliasOk pre st).2.objs ++ [(o, d.sn, d.ln)] }) := by
  rw [ext_init_append addOk aliasOk pre (d :: post) st hpre, if_pos hok]
  simp only [ext_init, ho]
  rw [if_neg (by simp [ha])]
  rcases ht with ht | ht <;> rw [ht] <;> simp [hfail]

/-- Witness for C2: a two-definition list whose second registration fails. -/
theorem C2_witness :
    ext_init (fun n => n == 0) (fun _ _ => true)
        ([⟨some "1.2.3", "a", "b", 0, Asn1Type.integer⟩]
          ++ ⟨some "1.2.4", "c", "d", 0, Asn1Type.octetString⟩ :: [])
        ⟨[], [], []⟩
      = (1, { objs := [("1.2.3", "a", "b"), ("1.2.4", "c", "d")],
              methods := [(0, Asn1Type.integer)], aliases := [] }) := by
  rw [C2_ext_init_fail_fast (fun n => n == 0) (fun _ _ => true)
    [⟨some "1.2.3", "a", "b", 0, Asn1Type.integer⟩] []
    ⟨[], [], []⟩ ⟨some "1.2.4", "c", "d", 0, Asn1Type.octetString⟩ "1.2.4"
    (by decide) rfl rfl rfl (Or.inr rfl) rfl]
  rfl

/-- C3: a definition list `pre ++ sentinel :: post`, where `pre` is
sentinel-free, is processed exactly like `pre` alone: nothing at or after
the sentinel is interned or registered. -/
theorem C3_ext_init_sentinel_stops (addOk : Nat → Bool) (aliasOk : Nat → Int → Bool)
    (pre post : List ExtDef) (st : RegState) (d : ExtDef)
    (hpre : ∀ x ∈ pre, x.oid ≠ none) (hd : d.oid = none) :
    ext_init addOk aliasOk (pre ++ d :: post) st = ext_init addOk aliasOk pre st := by
  rw [ext_init_append addOk aliasOk pre (d :: post) st hpre]
  by_cases h : (ext_init addOk aliasOk pre st).1 = 0
  · rw [if_pos h]
    have hstop : ext_init addOk aliasOk (d :: post) (ext_init addOk aliasOk pre st).2
        = (0, (ext_init addOk aliasOk pre st).2) := by
      simp [ext_init, hd]
    rw [hstop, ← h]
  · rw [if_neg h]

/-- Witness for C3: a sentinel cuts off a trailing definition. -/
theorem C3_witness :
    ext_init (fun _ => true) (fun _ _ => true)
        ([⟨some "1.2.3", "a", "b", 0, Asn1Type.integer⟩]
          ++ ⟨none, "", "", 0, Asn1Type.integer⟩
            :: [⟨some "9.9", "x", "y", 0, Asn1Type.integer⟩])
        ⟨[], [], []⟩
      = ext_init (fun _ => true) (fun _ _ => true)
          [⟨some "1.2.3", "a", "b", 0, Asn1Type.integer⟩] ⟨[], [], []⟩ :=
  C3_ext_init_sentinel_stops (fun _ => true) (fun _ _ => true)
    [⟨some "1.2.3", "a", "b", 0, Asn1Type.integer⟩]
    [⟨some "9.9", "x", "y", 0, Asn1Type.integer⟩]
    ⟨[], [], []⟩ ⟨none, "", "", 0, Asn1Type.integer⟩ (by decide) rfl

/-- C6: a definition with no alias and an unsupported ASN.1 type is skipped
without error: its OID is interned (it consumes a NID), processing continues
with the remaining definitions, and no method entry is ever attached for
the NID it consumed. -/
theorem C6_ext_init_skips_unsupported_kind (addOk : Nat → Bool)
    (aliasOk : Nat → Int → Bool) (rest : List ExtDef) (st : RegState)
    (d : ExtDef) (o : String) (c : Int)
    (ho : d.oid = some o) (ha : d.aliasNid = 0) (ht : d.type = Asn1Type.other c) :
    ext_init addOk aliasOk (d :: rest) st
      = ext_init addOk aliasOk rest { st with objs := st.objs ++ [(o, d.sn, d.ln)] }
    ∧ ∀ p ∈ (ext_init addOk aliasOk (d :: rest) st).2.methods,
        p ∈ st.methods ∨ st.objs.length < p.1 := by
  have hstep : ext_init addOk aliasOk (d :: rest) st
      = ext_init addOk aliasOk rest { st with objs := st.objs ++ [(o, d.sn, d.ln)] } := by
    simp only [ext_init, ho]
    rw [if_neg (by simp [ha]), ht]
  refine ⟨hstep, ?_⟩
  intro p hp
  rw [hstep] at hp
  rcases ext_init_methods_mono addOk aliasOk rest _ p hp with h1 | h1
  · exact Or.inl h1
  · right
    simp at h1
    omega

/-- Witness for C6: an `other`-typed definition is interned and skipped. -/
theorem C6_witness :
    ext_init (fun _ => true) (fun _ _ => true)
        [⟨some "1.2.3", "a", "b", 0, Asn1Type.other 5⟩] ⟨[], [], []⟩
      = ext_init (fun _ => true) (fun _ _ => true) []
          ⟨[("1.2.3", "a", "b")], [], []⟩ :=
  (C6_ext_init_skips_unsupported_kind (fun _ => true) (fun _ _ => true) []
    ⟨[], [], []⟩ ⟨some "1.2.3", "a", "b", 0, Asn1Type.other 5⟩ "1.2.3" 5
    rfl rfl rfl).1

/-- One step of `ext_init` at the sentinel: the scan stops with success. -/
theorem ext_init_cons_none (addOk : Nat → Bool) (aliasOk : Nat → Int → Bool)
    (d : ExtDef) (rest : List ExtDef) (st : RegState) (ho : d.oid = none) :
    ext_init addOk aliasOk (d :: rest) st = (0, st) := by
  simp [ext_init, ho]

/-- One step of `ext_init` at an aliased definition: the OID is interned,
the alias registration is attempted (its outcome recorded but never
inspected), and the scan continues. -/
theorem ext_init_cons_alias (addOk : Nat → Bool) (aliasOk : Nat → Int → Bool)
    (d : ExtDef) (o : String) (rest : List ExtDef) (st : RegState)
    (ho : d.oid = some o) (ha : d.aliasNid ≠ 0) :
    ext_init addOk aliasOk (d :: rest) st
      = ext_init addOk aliasOk rest
          { st with
            objs := st.objs ++ [(o, d.sn, d.ln)],
            aliases := st.aliases
              ++ [(st.objs.length, d.aliasNid,
                   aliasOk st.objs.length d.aliasNid)] } := by
  simp only [ext_init, ho]
  rw [if_pos ha]

/-- One step of `ext_init` at a supported type whose `X509V3_EXT_add`
succeeds: OID interned, methods attached, scan continues. -/
theorem ext_init_cons_add_ok (addOk : Nat → Bool) (aliasOk : Nat → Int → Bool)
    (d : ExtDef) (o : String) (rest : List ExtDef) (st : RegState)
    (ho : d.oid = some o) (ha : d.aliasNid = 0)
    (ht : d.type = Asn1Type.integer ∨ d.type = Asn1Type.octetString)
    (hok : addOk st.objs.length = true) :
    ext_init addOk aliasOk (d :: rest) st
      = ext_init addOk aliasOk rest
          { st with
            objs := st.objs ++ [(o, d.sn, d.ln)],
            methods := st.methods ++ [(st.objs.length, d.type)] } := by
  simp only [ext_init, ho]
  rw [if_neg (show ¬(d.aliasNid ≠ 0) by simp [ha])]
  rcases ht with ht | ht <;> rw [ht] <;> simp [hok]

/-- One step of `ext_init` at a supported type whose `X509V3_EXT_add`
fails: the error code is returned at once, with the OID interned. -/
theorem ext_init_cons_add_fail (addOk : Nat → Bool) (aliasOk : Nat → Int → Bool)
    (d : ExtDef) (o : String) (rest : List ExtDef) (st : RegState)
    (ho : d.oid = some o) (ha : d.aliasNid = 0)
    (ht : d.type = Asn1Type.integer ∨ d.type = Asn1Type.octetString)
    (hfail : addOk st.objs.length = false) :
    ext_init addOk aliasOk (d :: rest) st
      = (1, { st with objs := st.objs ++ [(o, d.sn, d.ln)] }) := by
  simp only [ext_init, ho]
  rw [if_neg (show ¬(d.aliasNid ≠ 0) by simp [ha])]
  rcases ht with ht | ht <;> rw [ht] <;> simp [hfail]

/-- One step of `ext_init` at an unsupported type: OID interned, definition
otherwise skipped (`default: continue`). -/
theorem ext_init_cons_other (addOk : Nat → Bool) (aliasOk : Nat → Int → Bool)
    (d : ExtDef) (o : String) (c : Int) (rest : List ExtDef) (st : RegState)
    (ho : d.oid = some o) (ha : d.aliasNid = 0) (ht : d.type = Asn1Type.other c) :
    ext_init addOk aliasOk (d :: rest) st
      = ext_init addOk aliasOk rest
          { st with objs := st.objs ++ [(o, d.sn, d.ln)] } := by
  simp only [ext_init, ho]
  rw [if_neg (show ¬(d.aliasNid ≠ 0) by simp [ha]), ht]

/-- The result code, interned objects, and registered methods of `ext_init`
do not depend on the outcomes of `X509V3_EXT_add_alias` (the code discards
them), as long as the starting states agree on objects and methods. -/
theorem ext_init_alias_indep (addOk : Nat → Bool) (ao1 ao2 : Nat → Int → Bool)
    (l : List ExtDef) :
    ∀ st1 st2 : RegState, st1.objs = st2.objs → st1.methods = st2.methods →
      (ext_init addOk ao1 l st1).1 = (ext_init addOk ao2 l st2).1
      ∧ (ext_init addOk ao1 l st1).2.objs = (ext_init addOk ao2 l st2).2.objs
      ∧ (ext_init addOk ao1 l st1).2.methods = (ext_init addOk ao2 l st2).2.methods := by
  induction l with
  | nil =>
    intro st1 st2 h1 h2
    exact ⟨rfl, h1, h2⟩
  | cons d rest ih =>
    intro st1 st2 h1 h2
    have hlen : st1.objs.length = st2.objs.length := by rw [h1]
    cases ho : d.oid with
    | none =>
      rw [ext_init_cons_none addOk ao1 d rest st1 ho,
        ext_init_cons_none addOk ao2 d rest st2 ho]
      exact ⟨rfl, h1, h2⟩
    | some o =>
      by_cases ha : d.aliasNid = 0
      · rcases htype : d.type with _ | _ | c
        · rcases haddOk : addOk st1.objs.length with _ | _
          · rw [ext_init_cons_add_fail addOk ao1 d o rest st1 ho ha
                (by rw [htype]; simp) haddOk,
              ext_init_cons_add_fail addOk ao2 d o rest st2 ho ha
                (by rw [htype]; simp) (by rw [← hlen]; exact haddOk)]
            exact ⟨rfl, by simp [h1], h2⟩
          · rw [ext_init_cons_add_ok addOk ao1 d o rest st1 ho ha
                (by rw [htype]; simp) haddOk,
              ext_init_cons_add_ok addOk ao2 d o rest st2 ho ha
                (by rw [htype]; simp) (by rw [← hlen]; exact haddOk)]
            exact ih _ _ (by simp [h1]) (by simp [h2, hlen])
        · rcases haddOk : addOk st1.objs.length with _ | _
          · rw [ext_init_cons_add_fail addOk ao1 d o rest st1 ho ha
                (by rw [htype]; simp) haddOk,
              ext_init_cons_add_fail addOk ao2 d o rest st2 ho ha
                (by rw [htype]; simp) (by rw [← hlen]; exact haddOk)]
            exact ⟨rfl, by simp [h1], h2⟩
          · rw [ext_init_cons_add_ok addOk ao1 d o rest st1 ho ha
                (by rw [htype]; simp) haddOk,
              ext_init_cons_add_ok addOk ao2 d o rest st2 ho ha
                (by rw [htype]; simp) (by rw [← hlen]; exact haddOk)]
            exact ih _ _ (by simp [h1]) (by simp [h2, hlen])
        · rw [ext_init_cons_other addOk ao1 d o c rest st1 ho ha htype,
            ext_init_cons_other addOk ao2 d o c rest st2 ho ha htype]
          exact ih _ _ (by simp [h1]) h2
      · rw [ext_init_cons_alias addOk ao1 d o rest st1 ho ha,
          ext_init_cons_alias addOk ao2 d o rest st2 ho ha]
        exact ih _ _ (by simp [h1]) h2

/-- C10: `ext_init` ignores the outcome of alias registration. The result
code, interned objects and registered methods are the same under any alias
oracle, and a definition with an alias is processed by recording the
attempt — whatever its outcome — and continuing with the rest of the list. -/
theorem C10_alias_outcome_ignored :
    (∀ (addOk : Nat → Bool) (ao1 ao2 : Nat → Int → Bool) (l : List ExtDef)
       (st : RegState),
       (ext_init addOk ao1 l st).1 = (ext_init addOk ao2 l st).1
       ∧ (ext_init addOk ao1 l st).2.objs = (ext_init addOk ao2 l st).2.objs
       ∧ (ext_init addOk ao1 l st).2.methods = (ext_init addOk ao2 l st).2.methods)
    ∧ ∀ (addOk : Nat → Bool) (ao : Nat → Int → Bool) (d : ExtDef) (o : String)
        (rest : List ExtDef) (st : RegState),
        d.oid = some o → d.aliasNid ≠ 0 →
        ext_init addOk ao (d :: rest) st
          = ext_init addOk ao rest
              { st with
                objs := st.objs ++ [(o, d.sn, d.ln)],
                aliases := st.aliases
                  ++ [(st.objs.length, d.aliasNid,
                       ao st.objs.length d.aliasNid)] } := by
  constructor
  · intro addOk ao1 ao2 l st
    exact ext_init_alias_indep addOk ao1 ao2 l st st rfl rfl
  · intro addOk ao d o rest st ho ha
    exact ext_init_cons_alias addOk ao d o rest st ho ha

/-- Witness for C10: an alias registration that fails is recorded and
processing continues (and, the list being exhausted, returns success). -/
theorem C10_witness :
    ext_init (fun _ => true) (fun _ _ => false)
        [⟨some "1.2.3", "a", "b", 7, Asn1Type.integer⟩] ⟨[], [], []⟩
      = ext_init (fun _ => true) (fun _ _ => false) []
          ⟨[("1.2.3", "a", "b")], [], [(0, 7, false)]⟩ := by
  rw [C10_alias_outcome_ignored.2 (fun _ => true) (fun _ _ => false)
    ⟨some "1.2.3", "a", "b", 7, Asn1Type.integer⟩ "1.2.3" [] ⟨[], [], []⟩
    rfl (by decide)]
  rfl

/-- C9: the encoders mutate no registry state. Threading the process-wide
registry through every toolkit call each encoder makes, the state after the
call equals the state before it, and the produced record is exactly the one
the pure encoder builds from the caller-supplied payload. -/
theorem C9_encoders_preserve_registry (st : RegState) (nid crit : Int)
    (buf : List Nat) (v : Int) (k : EVP_PKEY) :
    (ext_new_hash_st st nid crit buf).2 = st
    ∧ (ext_new_nvcounter_st st nid crit v).2 = st
    ∧ (ext_new_key_st st nid crit k).2 = st
    ∧ (ext_new_hash_st st nid crit buf).1 = ext_new_hash nid crit buf
    ∧ (ext_new_nvcounter_st st nid crit v).1 = ext_new_nvcounter nid crit v
    ∧ (ext_new_key_st st nid crit k).1 = ext_new_key nid crit k := by
  refine ⟨rfl, rfl, ?_, rfl, rfl, ?_⟩ <;>
    cases hk : k.pubkeyDer <;>
      simp [ext_new_key_st, ext_new_key, ext_new_st, hk]

end ExtC
